import Mathlib

/-!
# Verification of the juno-miner core against its specification

This file gives a shallow embedding, in Lean 4, of the byte-level core of the
juno-miner repository (src/utils.cpp, src/miner.cpp, src/rpc_client.cpp) and
proves the specified properties of it.

Modelling conventions:
* C++ machine integers are modelled as `Nat`; truncating conversions are made
  explicit with `% 2 ^ w`.  Bit operations of the source on byte values are
  rendered arithmetically: `x & 0xff` is `x % 256`, `x >> 8` is `x / 256`,
  `x & 0x007fffff` is `x % 2 ^ 23`, and an or of disjoint shifted bytes is a
  sum (`b0 | (b1 << 8) | ... = b0 + 256 * b1 + ...` for bytes `< 256`).
* `std::vector<uint8_t>` and byte buffers become `List Nat`.
* Fallible C++ code (functions whose callees may throw) returns `Option` or
  `Except String`.
* Imperative writes into a pre-sized buffer (`std::copy` / `write_le32` at an
  offset) are modelled by `writeBytes`, which splices a byte list into a
  buffer at an offset, exactly as the in-place write does when it stays in
  bounds.
-/

namespace JunoMiner

/-- One hexadecimal digit, as `std::stoi(_, nullptr, 16)` accepts it
(`0`..`9`, `a`..`f`, `A`..`F`). -/
def hexDigit? (c : Char) : Option Nat :=
  if 48 ≤ c.toNat ∧ c.toNat ≤ 57 then some (c.toNat - 48)
  else if 97 ≤ c.toNat ∧ c.toNat ≤ 102 then some (c.toNat - 87)
  else if 65 ≤ c.toNat ∧ c.toNat ≤ 70 then some (c.toNat - 55)
  else none

/-- Leading whitespace characters skipped by `strtol`-family functions. -/
def isSpaceChar (c : Char) : Bool :=
  c = ' ' ∨ c = '\t' ∨ c = '\n' ∨ c = '\x0b' ∨ c = '\x0c' ∨ c = '\r'

def skipWs : List Char → List Char
  | [] => []
  | c :: cs => if isSpaceChar c then skipWs cs else c :: cs

/-- The longest prefix of hexadecimal digits, as digit values. -/
def takeHexDigits : List Char → List Nat
  | [] => []
  | c :: cs =>
    match hexDigit? c with
    | some d => d :: takeHexDigits cs
    | none => []

/-- Value of a big-endian hex digit string. -/
def digitsVal (ds : List Nat) : Nat := ds.foldl (fun a d => 16 * a + d) 0

/-- Model of `std::stoi(s, nullptr, 16)`: skip whitespace, optional sign,
then at least one hex digit; `none` models the `std::invalid_argument`
throw.  The miner only calls this on substrings of at most two characters,
so overflow and the `0x`-prefix rule cannot change the result. -/
def stoi16? (s : String) : Option Int :=
  let cs := skipWs s.toList
  match cs with
  | '-' :: rest =>
    match takeHexDigits rest with
    | [] => none
    | ds => some (-(Int.ofNat (digitsVal ds)))
  | '+' :: rest =>
    match takeHexDigits rest with
    | [] => none
    | ds => some (Int.ofNat (digitsVal ds))
  | rest =>
    match takeHexDigits rest with
    | [] => none
    | ds => some (Int.ofNat (digitsVal ds))

/-- Model of `std::stoul(s, nullptr, 16)` on a 64-bit `unsigned long`:
`none` models both the no-digit throw and the out-of-range throw; a leading
minus sign wraps modulo `2 ^ 64` as `strtoul` specifies. -/
def stoul16? (s : String) : Option Nat :=
  let cs := skipWs s.toList
  match cs with
  | '-' :: rest =>
    match takeHexDigits rest with
    | [] => none
    | ds => if digitsVal ds < 2 ^ 64 then some ((2 ^ 64 - digitsVal ds) % 2 ^ 64) else none
  | '+' :: rest =>
    match takeHexDigits rest with
    | [] => none
    | ds => if digitsVal ds < 2 ^ 64 then some (digitsVal ds) else none
  | rest =>
    match takeHexDigits rest with
    | [] => none
    | ds => if digitsVal ds < 2 ^ 64 then some (digitsVal ds) else none

/-- `mapM` over `Option`, by direct structural recursion (easier to reason
about than the library loop). -/
def mapOpt {α β : Type} (f : α → Option β) : List α → Option (List β)
  | [] => some []
  | a :: as =>
    match f a with
    | none => none
    | some b =>
      match mapOpt f as with
      | none => none
      | some bs => some (b :: bs)

/-- The two-character groups `hex.substr(i, 2)` for `i = 0, 2, 4, ...`
(a trailing odd character yields a one-character group, as `substr` clamps). -/
def hexPairs : List Char → List (List Char)
  | [] => []
  | [a] => [[a]]
  | a :: b :: rest => [a, b] :: hexPairs rest

/-- `utils::hex_to_bytes` (src/utils.cpp:130-138): split the string into
two-character groups and convert each with
`static_cast<uint8_t>(std::stoi(group, nullptr, 16))`; a throw from `stoi`
propagates (modelled as `none`). -/
def hex_to_bytes (hex : String) : Option (List Nat) :=
  mapOpt (fun p => (stoi16? (String.mk p)).map (fun i => (i % 256).toNat)) (hexPairs hex.toList)

/-- The four little-endian bytes written by `utils::write_le32`
(src/utils.cpp:147-152). -/
def le32 (value : Nat) : List Nat :=
  [value % 256, value / 256 % 256, value / 65536 % 256, value / 16777216 % 256]

/-- `utils::read_le32` (src/utils.cpp:140-145) on a byte list: bytes beyond
the end read as 0 so that the definition is total. -/
def read_le32 (data : List Nat) : Nat :=
  data.getD 0 0 + 256 * data.getD 1 0 + 65536 * data.getD 2 0 + 16777216 * data.getD 3 0

/-- The value of a byte list read as a little-endian unsigned integer. -/
def le_val : List Nat → Nat
  | [] => 0
  | b :: bs => b + 256 * le_val bs

/-- `utils::compact_to_target` (src/utils.cpp:177-202).  `size` is the top
byte of the compact word, the mantissa is `compact_bits & 0x007fffff`
(= `% 2 ^ 23`).  The three-iteration loop of the `size ≤ 3` branch is
unrolled with its guard `i < 3 && i < size` kept on each iteration. -/
def compact_to_target (compact_bits : Nat) : List Nat :=
  let size := compact_bits / 2 ^ 24
  let word := compact_bits % 2 ^ 23
  let target : List Nat := List.replicate 32 0
  if size ≤ 3 then
    let w := word / 2 ^ (8 * (3 - size))
    let t0 := if 0 < size then target.set 0 (w % 256) else target
    let t1 := if 1 < size then t0.set 1 (w / 256 % 256) else t0
    if 2 < size then t1.set 2 (w / 65536 % 256) else t1
  else if size ≤ 32 then
    let pos := size - 3
    ((target.set pos (word % 256)).set (pos + 1) (word / 256 % 256)).set
      (pos + 2) (word / 65536 % 256)
  else target

/-- The loop of `utils::hash_meets_target` (src/utils.cpp:205-216) with `k`
32-bit words still to compare; word `k - 1` (the most significant remaining
one) is compared first, at byte offset `4 * (k - 1)`. -/
def hmt_go (hash target : List Nat) : Nat → Bool
  | 0 => true
  | k + 1 =>
    let hash_word := read_le32 (hash.drop (4 * k))
    let target_word := read_le32 (target.drop (4 * k))
    if hash_word < target_word then true
    else if target_word < hash_word then false
    else hmt_go hash target k

/-- `utils::hash_meets_target`: compare eight little-endian 32-bit words from
the most significant down; ties fall through, full equality returns true. -/
def hash_meets_target (hash target : List Nat) : Bool :=
  hmt_go hash target 8

/-- `utils::encode_varint` (src/utils.cpp:230-256), Bitcoin compact-size. -/
def encode_varint (n : Nat) : List Nat :=
  if n < 0xfd then [n]
  else if n ≤ 0xffff then [0xfd, n % 256, n / 256 % 256]
  else if n ≤ 0xffffffff then
    [0xfe, n % 256, n / 256 % 256, n / 65536 % 256, n / 16777216 % 256]
  else
    [0xff, n % 256, n / 256 % 256, n / 65536 % 256, n / 16777216 % 256,
     n / 2 ^ 32 % 256, n / 2 ^ 40 % 256, n / 2 ^ 48 % 256, n / 2 ^ 56 % 256]

/-- One lowercase hex digit character, as `std::hex` prints it. -/
def hexChar (d : Nat) : Char :=
  if d < 10 then Char.ofNat (48 + d) else Char.ofNat (87 + d)

/-- `utils::bytes_to_hex` (src/utils.cpp:113-119): each byte as two lowercase
zero-padded hex digits. -/
def bytes_to_hex (bs : List Nat) : String :=
  String.mk ((bs.map (fun b => [hexChar (b / 16), hexChar (b % 16)])).flatten)

/-- The byte string built by `utils::serialize_block` (src/utils.cpp:258-296)
before its final `bytes_to_hex`: header, solution with a compact-size length
prefix, transaction count, coinbase bytes, then the other transactions in
order.  A hex-decoding throw propagates (`none`). -/
def serialize_block_bytes (header solution : List Nat) (coinbase_hex : String)
    (txn_hex : List String) : Option (List Nat) :=
  match hex_to_bytes coinbase_hex with
  | none => none
  | some coinbase_bytes =>
    match mapOpt hex_to_bytes txn_hex with
    | none => none
    | some tx_bytes =>
      some (header ++ encode_varint solution.length ++ solution ++
        encode_varint (1 + txn_hex.length) ++ coinbase_bytes ++ tx_bytes.flatten)

/-- `utils::serialize_block`: the hex string of `serialize_block_bytes`. -/
def serialize_block (header solution : List Nat) (coinbase_hex : String)
    (txn_hex : List String) : Option String :=
  (serialize_block_bytes header solution coinbase_hex txn_hex).map bytes_to_hex

/-- Two little-endian bytes. -/
def le16_bytes (n : Nat) : List Nat := [n % 256, n / 256 % 256]

/-- Eight little-endian bytes. -/
def le64_bytes (n : Nat) : List Nat :=
  [n % 256, n / 256 % 256, n / 65536 % 256, n / 16777216 % 256,
   n / 2 ^ 32 % 256, n / 2 ^ 40 % 256, n / 2 ^ 48 % 256, n / 2 ^ 56 % 256]

/-- Written from the specification words for comparison with `encode_varint`
(spec section 6.2): Bitcoin compact-size is one byte below 0xFD; 0xFD plus
16 little-endian bits up to 0xFFFF; 0xFE plus 32 little-endian bits up to
0xFFFFFFFF; 0xFF plus 64 little-endian bits otherwise. -/
def varint_spec (n : Nat) : List Nat :=
  if n < 0xfd then [n]
  else if n ≤ 0xffff then 0xfd :: le16_bytes n
  else if n ≤ 0xffffffff then 0xfe :: le32 n
  else 0xff :: le64_bytes n

/-- Splice `src` into `buf` at byte offset `off`: the model of
`std::copy(src.begin(), src.end(), buf.begin() + off)` (and of `write_le32`
via `le32`) on a buffer with `off + src.length ≤ buf.length`. -/
def writeBytes (buf : List Nat) (off : Nat) (src : List Nat) : List Nat :=
  buf.take off ++ src ++ buf.drop (off + src.length)

/-- The fields `parse_block_template` (src/miner.cpp:705-876) reads from the
`getblocktemplate` JSON reply, after the JSON accessors: `none` models a
missing member (`isMember` false).  `transactions` holds, per array element,
the optional `data` member. -/
structure TemplateData where
  version : Option Nat
  previousblockhash : Option String
  curtime : Option Nat
  bits : Option String
  height : Option Nat
  randomxseedheight : Option Nat
  randomxseedhash : Option String
  randomxnextseedhash : Option String
  targetField : Option String
  defaultroots_merkleroot : Option String
  defaultroots_blockcommitmentshash : Option String
  blockcommitmentshash : Option String
  coinbasetxn_data : Option String
  transactions : List (Option String)

/-- `struct BlockTemplate` (src/miner.h:34-50). -/
structure BlockTemplate where
  version : Nat
  previous_block_hash : String
  merkle_root : String
  block_commitments_hash : String
  time : Nat
  bits : Nat
  target : List Nat
  target_hex : String
  height : Nat
  seed_height : Nat
  seed_hash : List Nat
  next_seed_hash : List Nat
  header_base : List Nat
  coinbase_txn_hex : String
  txn_hex : List String

/-- The optional-next-seed step of `parse_block_template`
(src/miner.cpp:751-756): decode `randomxnextseedhash` when present with
length 64, empty otherwise; a decoding throw propagates. -/
def next_seed_src (td : TemplateData) : Except String (List Nat) :=
  match td.randomxnextseedhash with
  | some next_seed_hex =>
    if next_seed_hex.length = 64 then
      match hex_to_bytes next_seed_hex with
      | none => Except.error "stoi: invalid hex"
      | some next_bytes => Except.ok next_bytes
    else Except.ok []
  | none => Except.ok []

/-- The block-commitments lookup of `parse_block_template`
(src/miner.cpp:776-783): `defaultroots.blockcommitmentshash` with fallback
to the top-level `blockcommitmentshash`. -/
def commitments_src (td : TemplateData) : Except String String :=
  match td.defaultroots_blockcommitmentshash with
  | some c => Except.ok c
  | none =>
    match td.blockcommitmentshash with
    | some c => Except.ok c
    | none => Except.error "Missing blockcommitmentshash in block template"

/-- `parse_block_template` (src/miner.cpp:705-876): field extraction in source
order (each missing or malformed field throws, modelled as `Except.error`),
then the 140-byte `header_base` assembly by sequential writes at offsets
0, 4, 36, 68, 100, 104 into a zero buffer (`resize(140)`), with the three
display-order hashes hex-decoded and byte-reversed, and the nonce area
(bytes 108..140) zero-filled. -/
def parse_block_template (td : TemplateData) : Except String BlockTemplate :=
  match td.version with
  | none => Except.error "Missing version in block template"
  | some version =>
  match td.previousblockhash with
  | none => Except.error "Missing previousblockhash in block template"
  | some prev_hash =>
  match td.curtime with
  | none => Except.error "Missing curtime in block template"
  | some time =>
  match td.bits with
  | none => Except.error "Missing bits in block template"
  | some bits_str =>
  match stoul16? bits_str with
  | none => Except.error "stoul: invalid bits string"
  | some bits_ul =>
  let bits := bits_ul % 2 ^ 32
  match td.height with
  | none => Except.error "Missing height in block template"
  | some height =>
  match td.randomxseedheight with
  | none => Except.error "Missing randomxseedheight in block template"
  | some seed_height =>
  match td.randomxseedhash with
  | none => Except.error "Missing randomxseedhash in block template"
  | some seed_hash_hex =>
  if seed_hash_hex.length = 64 then
    match hex_to_bytes seed_hash_hex with
    | none => Except.error "stoi: invalid hex"
    | some seed_hash =>
    match next_seed_src td with
    | Except.error e => Except.error e
    | Except.ok next_seed_hash =>
    let target := compact_to_target bits
    let target_hex := td.targetField.getD ""
    match td.defaultroots_merkleroot with
    | none => Except.error "Missing defaultroots.merkleroot in block template"
    | some merkle_root =>
    if merkle_root.length = 64 then
      match commitments_src td with
      | Except.error e => Except.error e
      | Except.ok commitments =>
      if commitments.length = 64 then
        match td.coinbasetxn_data with
        | none => Except.error "Missing coinbasetxn.data in block template"
        | some coinbase =>
        let txns := td.transactions.filterMap id
        let header1 := writeBytes (List.replicate 140 0) 0 (le32 version)
        match hex_to_bytes prev_hash with
        | none => Except.error "stoi: invalid hex"
        | some prev_bytes =>
        if prev_bytes.length = 32 then
          let header2 := writeBytes header1 4 prev_bytes.reverse
          match hex_to_bytes merkle_root with
          | none => Except.error "stoi: invalid hex"
          | some merkle_bytes =>
          if merkle_bytes.length = 32 then
            let header3 := writeBytes header2 36 merkle_bytes.reverse
            match hex_to_bytes commitments with
            | none => Except.error "stoi: invalid hex"
            | some commitments_bytes =>
            if commitments_bytes.length = 32 then
              let header4 := writeBytes header3 68 commitments_bytes.reverse
              let header5 := writeBytes header4 100 (le32 time)
              let header6 := writeBytes header5 104 (le32 bits)
              let header7 := writeBytes header6 108 (List.replicate 32 0)
              Except.ok
                { version := version
                  previous_block_hash := prev_hash
                  merkle_root := merkle_root
                  block_commitments_hash := commitments
                  time := time
                  bits := bits
                  target := target
                  target_hex := target_hex
                  height := height
                  seed_height := seed_height
                  seed_hash := seed_hash
                  next_seed_hash := next_seed_hash
                  header_base := header7
                  coinbase_txn_hex := coinbase
                  txn_hex := txns }
            else Except.error "Invalid blockcommitmentshash size"
          else Except.error "Invalid merkleroot size"
        else Except.error "Invalid previousblockhash size"
      else Except.error "Invalid blockcommitmentshash length"
    else Except.error "Invalid merkleroot length"
  else Except.error "Invalid randomxseedhash length"

/-- The block-1583 template data of the repository's own verification
program (test_hash_verification.cpp), as a concrete test vector. -/
def block1583_template : TemplateData :=
  { version := some 4
    previousblockhash :=
      some "23d39ee3ec4600c3f507230519a64ea5f6c444b22e85633a9526289127f4aa17"
    curtime := some 1760323089
    bits := some "1f09daa8"
    height := some 1583
    randomxseedheight := some 0
    randomxseedhash :=
      some "23d39ee3ec4600c3f507230519a64ea5f6c444b22e85633a9526289127f4aa17"
    randomxnextseedhash := none
    targetField := none
    defaultroots_merkleroot :=
      some "cf56010cd2de6b1323a0b0cf5f8f7354a4fa41c492eae5861c7929f2673e4f8e"
    defaultroots_blockcommitmentshash :=
      some "bf9cd388aa99b6d79402d285567ea326025936ef92d5a4c1ab7ae732acb942f5"
    blockcommitmentshash := none
    coinbasetxn_data := some "00"
    transactions := [] }

/-- The parse of `block1583_template` (total, with an unreachable dummy
fallback). -/
def block1583_parsed : BlockTemplate :=
  match parse_block_template block1583_template with
  | Except.ok bt => bt
  | Except.error _ =>
    { version := 0, previous_block_hash := "", merkle_root := "",
      block_commitments_hash := "", time := 0, bits := 0, target := [],
      target_hex := "", height := 0, seed_height := 0, seed_hash := [],
      next_seed_hash := [], header_base := [], coinbase_txn_hex := "", txn_hex := [] }

/-! ## RandomX state manager (`Miner::update_seed`, src/miner.cpp:482-602)

The RandomX library handles are modelled by the seed they are keyed to: a
cache or dataset holds the 32-byte seed it was last initialized with, and a
VM holds the seed of the cache or dataset it is bound to.  Library calls are
modelled as always succeeding; the work they perform is recorded as a list of
events so that `performs no work` is expressible. -/

/-- One NUMA node's resources (`struct NumaNodeResources`, src/miner.h:53-60),
keyed by seed. -/
structure NodeRes where
  cache : Option (List Nat)
  vms : List (List Nat)
deriving DecidableEq

/-- The `Miner` fields that `update_seed` reads or writes. -/
structure MinerSt where
  fast_mode : Bool
  numa_available : Bool
  mining : Bool
  current_seed_hash : List Nat
  numa_nodes : List NodeRes
  legacy_cache : Option (List Nat)
  legacy_vms : List (List Nat)
  dataset : Option (List Nat)
deriving DecidableEq

/-- Reinitialization work performed by `update_seed` through the RandomX
library (and the `stop()` of an active session). -/
inductive RxWork where
  | stopMining : RxWork
  | initCache : RxWork
  | initDataset : RxWork
  | destroyVm : RxWork
  | createVm : RxWork
  | setVmDataset : RxWork
deriving DecidableEq

/-- `Miner::update_seed` (src/miner.cpp:482-602): reject a seed that is not
32 bytes; skip entirely when the seed is unchanged; otherwise stop mining if
active, then re-key the NUMA caches (light NUMA path), or the legacy cache
plus the dataset (fast path) or the legacy VMs (light path); fail when no
cache was ever initialized.  Returns the success flag, the new state, and
the work performed. -/
def update_seed (st : MinerSt) (new_seed_hash : List Nat) : Bool × MinerSt × List RxWork :=
  if new_seed_hash.length ≠ 32 then (false, st, [])
  else if new_seed_hash = st.current_seed_hash then (true, st, [])
  else
    let stop_work : List RxWork := if st.mining then [RxWork.stopMining] else []
    let st1 := { st with mining := false }
    if st1.numa_available ∧ ¬ st1.fast_mode then
      let nodes := st1.numa_nodes.map (fun node =>
        match node.cache with
        | none => node
        | some _ =>
          { cache := some new_seed_hash, vms := node.vms.map (fun _ => new_seed_hash) })
      let work := st1.numa_nodes.map (fun node =>
        match node.cache with
        | none => ([] : List RxWork)
        | some _ =>
          RxWork.initCache ::
            (node.vms.map (fun _ => [RxWork.destroyVm, RxWork.createVm])).flatten)
      (true,
        { st1 with current_seed_hash := new_seed_hash, numa_nodes := nodes },
        stop_work ++ work.flatten)
    else
      match st1.legacy_cache with
      | some _ =>
        if st1.fast_mode ∧ st1.dataset.isSome then
          (true,
            { st1 with
              current_seed_hash := new_seed_hash
              legacy_cache := some new_seed_hash
              dataset := some new_seed_hash
              legacy_vms := st1.legacy_vms.map (fun _ => new_seed_hash) },
            stop_work ++ [RxWork.initCache, RxWork.initDataset] ++
              st1.legacy_vms.map (fun _ => RxWork.setVmDataset))
        else
          (true,
            { st1 with
              current_seed_hash := new_seed_hash
              legacy_cache := some new_seed_hash
              legacy_vms := st1.legacy_vms.map (fun _ => new_seed_hash) },
            stop_work ++ [RxWork.initCache] ++
              (st1.legacy_vms.map (fun _ => [RxWork.destroyVm, RxWork.createVm])).flatten)
      | none => (false, st1, stop_work)

/-! ## `RPCClient::submit_block` response classification -/

/-- The shape of the `submitblock` JSON-RPC result the classifier inspects:
`null`, a string, or anything else. -/
inductive JVal where
  | jnull : JVal
  | jstr : String → JVal
  | jother : JVal
deriving DecidableEq

/-- The classification step of `RPCClient::submit_block`
(src/rpc_client.cpp:150-168): null is success with result string `accepted`;
the strings `duplicate`, `inconclusive`, `duplicate-inconclusive` are
successes; any other string is a rejection; a non-null non-string result is
a rejection with result string `unknown`. -/
def submit_block_classify (response : JVal) : Bool × String :=
  match response with
  | JVal.jnull => (true, "accepted")
  | JVal.jstr s =>
    if s = "duplicate" ∨ s = "inconclusive" ∨ s = "duplicate-inconclusive" then (true, s)
    else (false, s)
  | JVal.jother => (false, "unknown")

/-! ## Mining session engine (`Miner::worker_thread` publication protocol)

The shared atomics of the mining session (src/miner.cpp:376-419,446-460) are
modelled as an interleaved small-step transition system: each step is one
atomic action of some thread.  `publish` is the successful
`found_.compare_exchange_strong(false, true)` together with the solution
stores and the `mining_ = false` store that the winning worker performs; its
premise `found = false` is exactly the compare-and-set success condition.
A failed compare-and-set changes nothing and so needs no step. -/

/-- A published solution: `solution_nonce_`, `solution_hash_`,
`solution_header_` (the template snapshot travels with them and is elided
into the same record). -/
structure Sol where
  nonce : List Nat
  hash : List Nat
  header : List Nat
deriving DecidableEq

/-- The session-shared state: the two atomic flags, the relaxed hash
counter, and the solution slot tagged with the identity of the worker that
filled it (`none` = empty, matching `solution_header_.empty()`). -/
structure EngineSt where
  mining : Bool
  found : Bool
  hash_count : Nat
  slot : Option (Nat × Sol)
deriving DecidableEq

/-- One atomic action of the session, with the acting worker recorded on
publication. -/
inductive ELabel where
  | lhash : ELabel
  | lpublish : Nat → Sol → ELabel
  | lstop : ELabel
deriving DecidableEq

/-- The interleaving semantics of the worker loop and `stop()`:
`hash` is one `randomx_calculate_hash` plus `hash_count_.fetch_add(1)`
(allowed even mid-stop, as the counter is relaxed); `publish` is the winning
compare-and-set path of src/miner.cpp:389-404; `stop` is the
`mining_ = false` store of `Miner::stop()`. -/
inductive EngineStep : ELabel → EngineSt → EngineSt → Prop where
  | hash (st : EngineSt) : EngineStep ELabel.lhash st { st with hash_count := st.hash_count + 1 }
  | publish (st : EngineSt) (i : Nat) (s : Sol) :
      st.found = false →
      EngineStep (ELabel.lpublish i s)
        st { st with found := true, slot := some (i, s), mining := false }
  | stop (st : EngineSt) : EngineStep ELabel.lstop st { st with mining := false }

/-- A finite interleaving of session steps. -/
inductive EngineTrace : EngineSt → List ELabel → EngineSt → Prop where
  | nil (st : EngineSt) : EngineTrace st [] st
  | cons {st1 st2 st3 : EngineSt} {l : ELabel} {ls : List ELabel} :
      EngineStep l st1 st2 → EngineTrace st2 ls st3 → EngineTrace st1 (l :: ls) st3

/-- Whether a step label is a solution publication. -/
def isPublish : ELabel → Bool
  | ELabel.lpublish _ _ => true
  | _ => false

/-- The read made by `Miner::get_solution` (src/miner.cpp:446-460): the
stored solution when `found_` is set and the slot is non-empty. -/
def get_solution (st : EngineSt) : Option Sol :=
  match st.slot with
  | some (_, s) => if st.found then some s else none
  | none => none

/-! ## Helper lemmas on byte lists and little-endian values -/

theorem le_val_append (a b : List Nat) :
    le_val (a ++ b) = le_val a + 256 ^ a.length * le_val b := by
  induction a with
  | nil => simp [le_val]
  | cons x xs ih =>
    show x + 256 * le_val (xs ++ b) = x + 256 * le_val xs + 256 ^ (xs.length + 1) * le_val b
    rw [ih, pow_succ]
    ring

theorem le_val_replicate_zero (k : Nat) : le_val (List.replicate k 0) = 0 := by
  induction k with
  | zero => rfl
  | succ p ih => simp [List.replicate_succ, le_val, ih]

theorem le_val_lt_pow (l : List Nat) (h : ∀ b ∈ l, b < 256) :
    le_val l < 256 ^ l.length := by
  induction l with
  | nil => simp [le_val]
  | cons x xs ih =>
    have hx : x < 256 := h x (by simp)
    have hxs : le_val xs < 256 ^ xs.length := ih (fun b hb => h b (by simp [hb]))
    simp only [le_val, List.length_cons]
    calc x + 256 * le_val xs < 256 * (le_val xs + 1) := by omega
      _ ≤ 256 * 256 ^ xs.length := Nat.mul_le_mul_left 256 hxs
      _ = 256 ^ (xs.length + 1) := by ring

theorem read_le32_eq_le_val_take (m : List Nat) : read_le32 m = le_val (m.take 4) := by
  rcases m with _ | ⟨a, _ | ⟨b, _ | ⟨c, _ | ⟨d, rest⟩⟩⟩⟩ <;>
    simp [read_le32, le_val, List.getD] <;> ring

theorem replicate_add_three (m : Nat) :
    List.replicate (m + 3) (0 : Nat) = 0 :: 0 :: 0 :: List.replicate m 0 := rfl

theorem replicate_add_one (m : Nat) :
    List.replicate (m + 1) (0 : Nat) = 0 :: List.replicate m 0 := rfl

theorem set3_repl :
    ∀ (pos n b0 b1 b2 : Nat), pos + 3 ≤ n →
      (((List.replicate n (0 : Nat)).set pos b0).set (pos + 1) b1).set (pos + 2) b2 =
        List.replicate pos 0 ++ b0 :: b1 :: b2 :: List.replicate (n - (pos + 3)) 0 := by
  intro pos
  induction pos with
  | zero =>
    intro n b0 b1 b2 h
    obtain ⟨m, rfl⟩ : ∃ m, n = m + 3 := ⟨n - 3, by omega⟩
    rw [replicate_add_three]
    have h1 : m + 3 - (0 + 3) = m := by omega
    rw [h1]
    rfl
  | succ p ih =>
    intro n b0 b1 b2 h
    obtain ⟨m, rfl⟩ : ∃ m, n = m + 1 := ⟨n - 1, by omega⟩
    rw [replicate_add_one]
    have e2 : p + 1 + 2 = p + 1 + 1 + 1 := rfl
    rw [e2, List.set_cons_succ, List.set_cons_succ, List.set_cons_succ]
    have e3 : p + 1 + 1 = p + 2 := rfl
    rw [e3, ih m b0 b1 b2 (by omega)]
    have h3 : m + 1 - (p + 1 + 3) = m - (p + 3) := by omega
    rw [h3]
    rfl

/-- The `size ≤ 3` branch of `compact_to_target` in closed form. -/
theorem compact_to_target_small (bits : Nat) (hs : bits / 2 ^ 24 ≤ 3) :
    compact_to_target bits =
      bits % 2 ^ 23 / 2 ^ (8 * (3 - bits / 2 ^ 24)) % 256 ::
        bits % 2 ^ 23 / 2 ^ (8 * (3 - bits / 2 ^ 24)) / 256 % 256 ::
          bits % 2 ^ 23 / 2 ^ (8 * (3 - bits / 2 ^ 24)) / 65536 % 256 ::
            List.replicate 29 0 := by
  have hm : bits % 2 ^ 23 < 2 ^ 23 := Nat.mod_lt _ (by norm_num)
  have h4 : bits / 2 ^ 24 = 0 ∨ bits / 2 ^ 24 = 1 ∨ bits / 2 ^ 24 = 2 ∨ bits / 2 ^ 24 = 3 := by
    omega
  simp only [compact_to_target]
  rcases h4 with h | h | h | h <;> rw [h] <;> norm_num
  · have hz : bits % 8388608 / 16777216 = 0 := by omega
    rw [hz]
    rfl
  · have hz1 : bits % 8388608 / 65536 / 256 = 0 := by omega
    have hz2 : bits % 8388608 / 65536 / 65536 = 0 := by omega
    rw [hz1, hz2]
    rfl
  · have hz : bits % 8388608 / 256 / 65536 = 0 := by omega
    rw [hz]
    rfl
  · rfl

/-- The `3 < size ≤ 32` branch of `compact_to_target` in closed form. -/
theorem compact_to_target_mid (bits : Nat) (h3 : 3 < bits / 2 ^ 24)
    (h32 : bits / 2 ^ 24 ≤ 32) :
    compact_to_target bits =
      List.replicate (bits / 2 ^ 24 - 3) 0 ++
        bits % 2 ^ 23 % 256 :: bits % 2 ^ 23 / 256 % 256 :: bits % 2 ^ 23 / 65536 % 256 ::
          List.replicate (32 - bits / 2 ^ 24) 0 := by
  simp only [compact_to_target]
  rw [if_neg (by omega), if_pos h32]
  rw [set3_repl (bits / 2 ^ 24 - 3) 32 _ _ _ (by omega)]
  have h : 32 - (bits / 2 ^ 24 - 3 + 3) = 32 - bits / 2 ^ 24 := by omega
  rw [h]

/-- The `size > 32` branch of `compact_to_target` yields the zero target. -/
theorem compact_to_target_large (bits : Nat) (h : 32 < bits / 2 ^ 24) :
    compact_to_target bits = List.replicate 32 0 := by
  simp only [compact_to_target]
  rw [if_neg (by omega), if_neg (by omega)]

/-- For `3 ≤ size ≤ 32` the target value is the mantissa shifted by
`size − 3` bytes. -/
theorem le_val_compact_to_target (bits : Nat) (h3 : 3 ≤ bits / 2 ^ 24)
    (h32 : bits / 2 ^ 24 ≤ 32) :
    le_val (compact_to_target bits) = bits % 2 ^ 23 * 256 ^ (bits / 2 ^ 24 - 3) := by
  have hm : bits % 2 ^ 23 < 2 ^ 23 := Nat.mod_lt _ (by norm_num)
  rcases Nat.eq_or_lt_of_le h3 with h | h
  · rw [compact_to_target_small bits (by omega), ← h]
    norm_num
    simp only [le_val, le_val_replicate_zero]
    omega
  · rw [compact_to_target_mid bits h h32, le_val_append, le_val_replicate_zero,
      List.length_replicate]
    simp only [le_val, le_val_replicate_zero]
    have hv : bits % 2 ^ 23 % 256 + 256 * (bits % 2 ^ 23 / 256 % 256 +
        256 * (bits % 2 ^ 23 / 65536 % 256 + 256 * 0)) = bits % 2 ^ 23 := by
      omega
    rw [hv]
    ring

/-! ## Claim C3 -/

/-- C3: for every 32-bit compact value, with `size = bits >> 24` and 23-bit
mantissa `bits & 0x007fffff`: if `size ≤ 3` the mantissa is shifted right by
`8 * (3 - size)` and its low bytes land at positions 0..2 with all other
bytes zero; if `3 < size ≤ 32` the mantissa's three little-endian bytes land
at positions `size - 3`, `size - 2`, `size - 1` with all other bytes zero;
if `size > 32` the target is all zeros. -/
theorem compact_to_target_layout (bits : Nat) (hbits : bits < 2 ^ 32) :
    (bits / 2 ^ 24 ≤ 3 →
      compact_to_target bits =
        bits % 2 ^ 23 / 2 ^ (8 * (3 - bits / 2 ^ 24)) % 256 ::
          bits % 2 ^ 23 / 2 ^ (8 * (3 - bits / 2 ^ 24)) / 256 % 256 ::
            bits % 2 ^ 23 / 2 ^ (8 * (3 - bits / 2 ^ 24)) / 65536 % 256 ::
              List.replicate 29 0) ∧
    (3 < bits / 2 ^ 24 → bits / 2 ^ 24 ≤ 32 →
      compact_to_target bits =
        List.replicate (bits / 2 ^ 24 - 3) 0 ++
          bits % 2 ^ 23 % 256 :: bits % 2 ^ 23 / 256 % 256 :: bits % 2 ^ 23 / 65536 % 256 ::
            List.replicate (32 - bits / 2 ^ 24) 0) ∧
    (32 < bits / 2 ^ 24 → compact_to_target bits = List.replicate 32 0) :=
  ⟨fun hs => compact_to_target_small bits hs,
   fun h3 h32 => compact_to_target_mid bits h3 h32,
   fun h => compact_to_target_large bits h⟩

/-- Witness for C3 at `bits = 0x1f09daa8` (the block-1583 difficulty):
mantissa `0x09daa8` landing at little-endian positions 28..30. -/
theorem compact_to_target_layout_witness :
    compact_to_target 0x1f09daa8 = List.replicate 28 0 ++ 168 :: 218 :: 9 :: List.replicate 1 0 := by
  have h := (compact_to_target_layout 0x1f09daa8 (by norm_num)).2.1 (by norm_num) (by norm_num)
  simpa using h

/-! ## Claim C4 -/

/-- C4 counterexample: `bits₁ = 0x04000001 < bits₂ = 0x04800001` share the
size byte 4, yet their targets are equal (the set mantissa sign bit of
`bits₂` is discarded by the `& 0x007fffff` mask), so the target for `bits₁`
is not strictly below the target for `bits₂`. -/
theorem compact_to_target_mono_cex :
    (0x04000001 : Nat) < 0x04800001 ∧
      (0x04000001 : Nat) / 2 ^ 24 = 0x04800001 / 2 ^ 24 ∧
      ¬ le_val (compact_to_target 0x04000001) < le_val (compact_to_target 0x04800001) := by
  decide

/-- C4 (amended): for compact values `bits₁ < bits₂` with the same size
byte, the same mantissa sign bit (bit 23), and size between 3 and 32, the
target for `bits₁` is strictly below the target for `bits₂` as little-endian
256-bit integers.  (With different sign bits the mask `& 0x007fffff` can
equate the mantissas; with size below 3 the right shift can discard the
differing mantissa bits; with size above 32 both targets are zero.) -/
theorem compact_to_target_strict_mono (b1 b2 : Nat) (hb : b2 < 2 ^ 32) (hlt : b1 < b2)
    (hsize : b1 / 2 ^ 24 = b2 / 2 ^ 24) (hsign : b1 / 2 ^ 23 % 2 = b2 / 2 ^ 23 % 2)
    (h3 : 3 ≤ b1 / 2 ^ 24) (h32 : b1 / 2 ^ 24 ≤ 32) :
    le_val (compact_to_target b1) < le_val (compact_to_target b2) := by
  have hm : b1 % 2 ^ 23 < b2 % 2 ^ 23 := by omega
  rw [le_val_compact_to_target b1 h3 h32,
    le_val_compact_to_target b2 (by omega) (by omega), hsize]
  exact Nat.mul_lt_mul_of_pos_right hm (by positivity)

/-- Witness for the amended C4 at `0x1f09daa8 < 0x1f09daa9`. -/
theorem compact_to_target_strict_mono_witness :
    le_val (compact_to_target 0x1f09daa8) < le_val (compact_to_target 0x1f09daa9) :=
  compact_to_target_strict_mono 0x1f09daa8 0x1f09daa9 (by norm_num) (by norm_num)
    (by norm_num) (by norm_num) (by norm_num) (by norm_num)

/-! ## Claim C10 -/

/-- C10: `compact_to_target` ignores the mantissa sign bit: the result is
unchanged when bit 23 is cleared (here `2 ^ 24 * (bits / 2 ^ 24) +
bits % 2 ^ 23` is `bits` with bit 23 cleared), because the mantissa is
extracted with the mask `& 0x007fffff`; and a set sign bit neither clamps
the target to all-ones nor forces it to zero (shown at `0x04800001`). -/
theorem compact_to_target_ignores_sign_bit (bits : Nat) :
    compact_to_target bits = compact_to_target (2 ^ 24 * (bits / 2 ^ 24) + bits % 2 ^ 23) ∧
      compact_to_target 0x04800001 ≠ List.replicate 32 255 ∧
      compact_to_target 0x04800001 ≠ List.replicate 32 0 := by
  refine ⟨?_, by decide, by decide⟩
  have hs : (2 ^ 24 * (bits / 2 ^ 24) + bits % 2 ^ 23) / 2 ^ 24 = bits / 2 ^ 24 := by omega
  have hw : (2 ^ 24 * (bits / 2 ^ 24) + bits % 2 ^ 23) % 2 ^ 23 = bits % 2 ^ 23 := by omega
  simp only [compact_to_target, hs, hw]

/-! ## Claim C2 -/

/-- The word loop of `hash_meets_target` decides exactly the little-endian
comparison of the low `4 * k` bytes. -/
theorem hmt_go_eq_le_iff (h t : List Nat) (hh : h.length = 32) (ht : t.length = 32)
    (hhb : ∀ b ∈ h, b < 256) (htb : ∀ b ∈ t, b < 256) :
    ∀ k, 4 * k ≤ 32 →
      (hmt_go h t k = true ↔ le_val (h.take (4 * k)) ≤ le_val (t.take (4 * k))) := by
  intro k
  induction k with
  | zero => intro _; simp [hmt_go, le_val]
  | succ p ih =>
    intro hk
    have hp : 4 * p ≤ 32 := by omega
    have hlen : ∀ (l : List Nat), l.length = 32 → (l.take (4 * p)).length = 4 * p := by
      intro l hl
      rw [List.length_take, hl]
      omega
    have hsplit : ∀ (l : List Nat), l.length = 32 →
        le_val (l.take (4 * (p + 1))) =
          le_val (l.take (4 * p)) + 256 ^ (4 * p) * read_le32 (l.drop (4 * p)) := by
      intro l hl
      have e : 4 * (p + 1) = 4 * p + 4 := by ring
      rw [e, List.take_add, le_val_append, hlen l hl, read_le32_eq_le_val_take]
    have hA : le_val (h.take (4 * p)) < 256 ^ (4 * p) := by
      have := le_val_lt_pow (h.take (4 * p)) (fun b hbm => hhb b (List.take_subset _ _ hbm))
      rwa [hlen h hh] at this
    have hB : le_val (t.take (4 * p)) < 256 ^ (4 * p) := by
      have := le_val_lt_pow (t.take (4 * p)) (fun b hbm => htb b (List.take_subset _ _ hbm))
      rwa [hlen t ht] at this
    rw [hsplit h hh, hsplit t ht]
    show (if read_le32 (h.drop (4 * p)) < read_le32 (t.drop (4 * p)) then true
        else if read_le32 (t.drop (4 * p)) < read_le32 (h.drop (4 * p)) then false
        else hmt_go h t p) = true ↔ _
    rcases Nat.lt_trichotomy (read_le32 (h.drop (4 * p))) (read_le32 (t.drop (4 * p))) with
      hc | hc | hc
    · rw [if_pos hc]
      refine iff_of_true rfl (le_of_lt ?_)
      calc le_val (h.take (4 * p)) + 256 ^ (4 * p) * read_le32 (h.drop (4 * p))
          < 256 ^ (4 * p) + 256 ^ (4 * p) * read_le32 (h.drop (4 * p)) :=
            Nat.add_lt_add_right hA _
        _ = 256 ^ (4 * p) * (read_le32 (h.drop (4 * p)) + 1) := by ring
        _ ≤ 256 ^ (4 * p) * read_le32 (t.drop (4 * p)) := Nat.mul_le_mul_left _ hc
        _ ≤ le_val (t.take (4 * p)) + 256 ^ (4 * p) * read_le32 (t.drop (4 * p)) :=
            Nat.le_add_left _ _
    · rw [if_neg (by omega), if_neg (by omega), hc, Nat.add_le_add_iff_right]
      exact ih hp
    · rw [if_neg (by omega), if_pos hc]
      refine iff_of_false (by simp) ?_
      rw [Nat.not_le]
      calc le_val (t.take (4 * p)) + 256 ^ (4 * p) * read_le32 (t.drop (4 * p))
          < 256 ^ (4 * p) + 256 ^ (4 * p) * read_le32 (t.drop (4 * p)) :=
            Nat.add_lt_add_right hB _
        _ = 256 ^ (4 * p) * (read_le32 (t.drop (4 * p)) + 1) := by ring
        _ ≤ 256 ^ (4 * p) * read_le32 (h.drop (4 * p)) := Nat.mul_le_mul_left _ hc
        _ ≤ le_val (h.take (4 * p)) + 256 ^ (4 * p) * read_le32 (h.drop (4 * p)) :=
            Nat.le_add_left _ _

/-- C2: on 32-byte inputs, `hash_meets_target` returns true exactly when the
hash, read as a little-endian 256-bit unsigned integer, is at most the
target read the same way (the word loop from index 7 down to 0 decides at
the first unequal word and accepts full equality). -/
theorem hash_meets_target_iff (hash target : List Nat) (hh : hash.length = 32)
    (ht : target.length = 32) (hhb : ∀ b ∈ hash, b < 256) (htb : ∀ b ∈ target, b < 256) :
    hash_meets_target hash target = true ↔ le_val hash ≤ le_val target := by
  have h8 := hmt_go_eq_le_iff hash target hh ht hhb htb 8 (by norm_num)
  have e1 : hash.take (4 * 8) = hash := List.take_of_length_le (by omega)
  have e2 : target.take (4 * 8) = target := List.take_of_length_le (by omega)
  rw [e1, e2] at h8
  exact h8

/-- Witness for C2: the all-zero hash meets the all-zero target (equality
meets the target). -/
theorem hash_meets_target_iff_witness :
    hash_meets_target (List.replicate 32 0) (List.replicate 32 0) = true := by
  have h := hash_meets_target_iff (List.replicate 32 0) (List.replicate 32 0)
    (by simp) (by simp) (by simp) (by simp)
  exact h.mpr (le_refl _)

/-! ## Claim C5 -/

/-- C5: for a 140-byte header, a 32-byte solution, and decodable coinbase
and transaction hex, `serialize_block` is the hex encoding of exactly
`header || varint(32) || solution || varint(1 + n_tx) || coinbase_bytes ||
tx_bytes...`, and `encode_varint` is Bitcoin compact-size encoding as the
specification describes it. -/
theorem serialize_block_layout (header solution : List Nat) (coinbase_hex : String)
    (txn_hex : List String) (coinbase_bytes : List Nat) (tx_bytes : List (List Nat))
    (hh : header.length = 140) (hs : solution.length = 32)
    (hc : hex_to_bytes coinbase_hex = some coinbase_bytes)
    (ht : mapOpt hex_to_bytes txn_hex = some tx_bytes) :
    serialize_block header solution coinbase_hex txn_hex =
      some (bytes_to_hex (header ++ encode_varint 32 ++ solution ++
        encode_varint (1 + txn_hex.length) ++ coinbase_bytes ++ tx_bytes.flatten)) ∧
    ∀ n : Nat, encode_varint n = varint_spec n := by
  constructor
  · simp [serialize_block, serialize_block_bytes, hc, ht, hs]
  · intro n
    rfl

/-- Witness for C5 on a concrete zero header, zero solution, one-byte
coinbase and no transactions. -/
theorem serialize_block_layout_witness :
    serialize_block (List.replicate 140 0) (List.replicate 32 0) "00" [] =
      some (bytes_to_hex (List.replicate 140 0 ++ encode_varint 32 ++
        List.replicate 32 0 ++ encode_varint (1 + ([] : List String).length) ++ [0] ++
        ([] : List (List Nat)).flatten)) :=
  (serialize_block_layout (List.replicate 140 0) (List.replicate 32 0) "00" [] [0] []
    (by simp) (by simp) (by rfl) (by rfl)).1

/-! ## Claim C7 -/

/-- C7: `submit_block` classifies the response as success exactly when it is
null or one of the strings duplicate, inconclusive, duplicate-inconclusive,
and maps null to the result string accepted; every other response is a
rejection. -/
theorem submit_block_success_iff (r : JVal) :
    ((submit_block_classify r).1 = true ↔
      r = JVal.jnull ∨ r = JVal.jstr "duplicate" ∨ r = JVal.jstr "inconclusive" ∨
        r = JVal.jstr "duplicate-inconclusive") ∧
    (r = JVal.jnull → (submit_block_classify r).2 = "accepted") := by
  constructor
  · cases r with
    | jnull => simp [submit_block_classify]
    | jstr s =>
      simp only [submit_block_classify]
      split_ifs with hcase <;> simp_all
    | jother => simp [submit_block_classify]
  · intro hr
    rw [hr]
    rfl

/-- Witness for C7 at the null response. -/
theorem submit_block_success_iff_witness :
    (submit_block_classify JVal.jnull).2 = "accepted" :=
  (submit_block_success_iff JVal.jnull).2 rfl

/-! ## Claim C1 -/

theorem writeBytes_split (pre rest src : List Nat) (off : Nat) (hoff : off = pre.length) :
    writeBytes (pre ++ rest) off src = pre ++ src ++ rest.drop src.length := by
  subst hoff
  have hdrop : (pre ++ rest).drop (pre.length + src.length) = rest.drop src.length := by
    rw [← List.drop_drop, List.drop_left]
  unfold writeBytes
  rw [List.take_left, hdrop, List.append_assoc]

/-- The seven sequential buffer writes of the header assembly, flattened to
one concatenation. -/
theorem header_assembly (v t b : Nat) (p m c : List Nat)
    (hp : p.length = 32) (hm : m.length = 32) (hc : c.length = 32) :
    writeBytes (writeBytes (writeBytes (writeBytes (writeBytes (writeBytes (writeBytes
        (List.replicate 140 0) 0 (le32 v)) 4 p) 36 m) 68 c) 100 (le32 t)) 104 (le32 b))
        108 (List.replicate 32 0) =
      le32 v ++ p ++ m ++ c ++ le32 t ++ le32 b ++ List.replicate 32 0 := by
  have e1 : writeBytes (List.replicate 140 0) 0 (le32 v) = le32 v ++ List.replicate 136 0 := by
    have h := writeBytes_split [] (List.replicate 140 0) (le32 v) 0 rfl
    simpa [le32] using h
  have e2 : writeBytes (le32 v ++ List.replicate 136 0) 4 p =
      (le32 v ++ p) ++ List.replicate 104 0 := by
    have h := writeBytes_split (le32 v) (List.replicate 136 0) p 4 (by simp [le32])
    simpa [hp, ← List.append_assoc] using h
  have e3 : writeBytes ((le32 v ++ p) ++ List.replicate 104 0) 36 m =
      ((le32 v ++ p) ++ m) ++ List.replicate 72 0 := by
    have h := writeBytes_split (le32 v ++ p) (List.replicate 104 0) m 36 (by simp [le32, hp])
    simpa [hm, ← List.append_assoc] using h
  have e4 : writeBytes (((le32 v ++ p) ++ m) ++ List.replicate 72 0) 68 c =
      (((le32 v ++ p) ++ m) ++ c) ++ List.replicate 40 0 := by
    have h := writeBytes_split ((le32 v ++ p) ++ m) (List.replicate 72 0) c 68
      (by simp [le32, hp, hm])
    simpa [hc, ← List.append_assoc] using h
  have e5 : writeBytes ((((le32 v ++ p) ++ m) ++ c) ++ List.replicate 40 0) 100 (le32 t) =
      ((((le32 v ++ p) ++ m) ++ c) ++ le32 t) ++ List.replicate 36 0 := by
    have h := writeBytes_split (((le32 v ++ p) ++ m) ++ c) (List.replicate 40 0) (le32 t) 100
      (by simp [le32, hp, hm, hc])
    simpa [le32, ← List.append_assoc] using h
  have e6 : writeBytes (((((le32 v ++ p) ++ m) ++ c) ++ le32 t) ++ List.replicate 36 0) 104
        (le32 b) =
      (((((le32 v ++ p) ++ m) ++ c) ++ le32 t) ++ le32 b) ++ List.replicate 32 0 := by
    have h := writeBytes_split ((((le32 v ++ p) ++ m) ++ c) ++ le32 t) (List.replicate 36 0)
      (le32 b) 104 (by simp [le32, hp, hm, hc])
    simpa [le32, ← List.append_assoc] using h
  have e7 : writeBytes ((((((le32 v ++ p) ++ m) ++ c) ++ le32 t) ++ le32 b) ++
        List.replicate 32 0) 108 (List.replicate 32 0) =
      (((((le32 v ++ p) ++ m) ++ c) ++ le32 t) ++ le32 b) ++ List.replicate 32 0 := by
    have h := writeBytes_split (((((le32 v ++ p) ++ m) ++ c) ++ le32 t) ++ le32 b)
      (List.replicate 32 0) (List.replicate 32 0) 108 (by simp [le32, hp, hm, hc])
    simpa [← List.append_assoc] using h
  rw [e1, e2, e3, e4, e5, e6, e7]

theorem take_append_len (a b : List Nat) (n : Nat) (h : a.length = n) : (a ++ b).take n = a := by
  subst h
  exact List.take_left a b

theorem drop_append_len (a b : List Nat) (n : Nat) (h : a.length = n) : (a ++ b).drop n = b := by
  subst h
  exact List.drop_left a b

theorem hexPairs_length : ∀ (cs : List Char), (hexPairs cs).length = (cs.length + 1) / 2
  | [] => rfl
  | [_] => by simp [hexPairs]
  | _ :: _ :: rest => by
    show (hexPairs rest).length + 1 = _
    rw [hexPairs_length rest]
    simp only [List.length_cons]
    omega

theorem mapOpt_length {α β : Type} (f : α → Option β) :
    ∀ (xs : List α) (ys : List β), mapOpt f xs = some ys → ys.length = xs.length := by
  intro xs
  induction xs with
  | nil =>
    intro ys h
    simp only [mapOpt, Option.some.injEq] at h
    rw [← h]
    rfl
  | cons a as ih =>
    intro ys h
    simp only [mapOpt] at h
    rcases hfa : f a with _ | b
    · rw [hfa] at h
      exact absurd h (by simp)
    · rw [hfa] at h
      rcases hrec : mapOpt f as with _ | bs
      · rw [hrec] at h
        exact absurd h (by simp)
      · rw [hrec] at h
        simp only [Option.some.injEq] at h
        rw [← h]
        simp [ih bs hrec]

/-- A 64-character hex field decodes to exactly 32 bytes. -/
theorem hex_to_bytes_length (s : String) (bs : List Nat) (h64 : s.length = 64)
    (h : hex_to_bytes s = some bs) : bs.length = 32 := by
  have h1 := mapOpt_length _ _ _ h
  rw [hexPairs_length] at h1
  have h2 : s.toList.length = 64 := h64
  rw [h2] at h1
  simpa using h1

/-- C1: every accepted block-template input yields a `header_base` whose
bytes 0..4 are the little-endian version, whose bytes 4..36, 36..68, 68..100
are the byte-reversals of the hex-decoded `previousblockhash`, `merkleroot`
and `blockcommitmentshash` (display order reversed to internal order), whose
bytes 100..104 and 104..108 are the little-endian time and bits, and whose
32-byte `seed_hash` is the hex decoding of `randomxseedhash` with no
reversal. -/
theorem parse_block_template_layout (td : TemplateData) (bt : BlockTemplate)
    (h : parse_block_template td = Except.ok bt) :
    ∃ prev_bytes merkle_bytes commitments_bytes seed_hex,
      hex_to_bytes bt.previous_block_hash = some prev_bytes ∧
      hex_to_bytes bt.merkle_root = some merkle_bytes ∧
      hex_to_bytes bt.block_commitments_hash = some commitments_bytes ∧
      td.randomxseedhash = some seed_hex ∧
      hex_to_bytes seed_hex = some bt.seed_hash ∧
      bt.seed_hash.length = 32 ∧
      bt.header_base.length = 140 ∧
      bt.header_base.take 4 = le32 bt.version ∧
      (bt.header_base.drop 4).take 32 = prev_bytes.reverse ∧
      (bt.header_base.drop 36).take 32 = merkle_bytes.reverse ∧
      (bt.header_base.drop 68).take 32 = commitments_bytes.reverse ∧
      (bt.header_base.drop 100).take 4 = le32 bt.time ∧
      (bt.header_base.drop 104).take 4 = le32 bt.bits := by
  unfold parse_block_template at h
  split at h <;> first | exact Except.noConfusion h | skip
  split at h <;> first | exact Except.noConfusion h | skip
  split at h <;> first | exact Except.noConfusion h | skip
  split at h <;> first | exact Except.noConfusion h | skip
  split at h <;> first | exact Except.noConfusion h | skip
  split at h <;> first | exact Except.noConfusion h | skip
  split at h <;> first | exact Except.noConfusion h | skip
  split at h <;> first | exact Except.noConfusion h | skip
  split at h <;> first | exact Except.noConfusion h | skip
  split at h <;> first | exact Except.noConfusion h | skip
  split at h <;> first | exact Except.noConfusion h | skip
  split at h <;> first | exact Except.noConfusion h | skip
  split at h <;> first | exact Except.noConfusion h | skip
  split at h <;> first | exact Except.noConfusion h | skip
  split at h <;> first | exact Except.noConfusion h | skip
  split at h <;> first | exact Except.noConfusion h | skip
  split at h <;> first | exact Except.noConfusion h | skip
  split at h <;> first | exact Except.noConfusion h | skip
  split at h <;> first | exact Except.noConfusion h | skip
  split at h <;> first | exact Except.noConfusion h | skip
  split at h <;> first | exact Except.noConfusion h | skip
  split at h <;> first | exact Except.noConfusion h | skip
  rename_i x16 ver hver x15 prevstr hprev x14 time htime x13 bitsstr hbitss
    x12 bits_ul hbitsul x11 height hheight x10 sheight hsheight x9 shex hshex hs64
    x8 seedb hseedb x7 nseed hnseed x6 merk hmerk hm64 x5 comm hcomm hc64
    x4 coinb hcoinb x3 pb hpb hp32 x2 mb hmb hm32 x1 cb hcb hc32
  simp only [Except.ok.injEq] at h
  subst h
  have hp' : pb.reverse.length = 32 := by simp [hp32]
  have hm' : mb.reverse.length = 32 := by simp [hm32]
  have hc' : cb.reverse.length = 32 := by simp [hc32]
  have hH := header_assembly ver time (bits_ul % 2 ^ 32) pb.reverse mb.reverse cb.reverse
    hp' hm' hc'
  have hassoc4 : le32 ver ++ pb.reverse ++ mb.reverse ++ cb.reverse ++ le32 time ++
      le32 (bits_ul % 2 ^ 32) ++ List.replicate 32 0 =
      le32 ver ++ (pb.reverse ++ (mb.reverse ++ (cb.reverse ++ (le32 time ++
        (le32 (bits_ul % 2 ^ 32) ++ List.replicate 32 0))))) := by
    simp [List.append_assoc]
  refine ⟨pb, mb, cb, shex, hpb, hmb, hcb, hshex, hseedb,
    hex_to_bytes_length shex seedb hs64 hseedb, ?_, ?_, ?_, ?_, ?_, ?_, ?_⟩
  · show (writeBytes (writeBytes (writeBytes (writeBytes (writeBytes (writeBytes (writeBytes
        (List.replicate 140 0) 0 (le32 ver)) 4 pb.reverse) 36 mb.reverse) 68 cb.reverse)
        100 (le32 time)) 104 (le32 (bits_ul % 2 ^ 32))) 108 (List.replicate 32 0)).length = 140
    rw [hH]
    simp [le32, hp32, hm32, hc32]
  · show (writeBytes (writeBytes (writeBytes (writeBytes (writeBytes (writeBytes (writeBytes
        (List.replicate 140 0) 0 (le32 ver)) 4 pb.reverse) 36 mb.reverse) 68 cb.reverse)
        100 (le32 time)) 104 (le32 (bits_ul % 2 ^ 32))) 108 (List.replicate 32 0)).take 4 =
      le32 ver
    rw [hH, hassoc4]
    exact take_append_len _ _ 4 (by simp [le32])
  · show ((writeBytes (writeBytes (writeBytes (writeBytes (writeBytes (writeBytes (writeBytes
        (List.replicate 140 0) 0 (le32 ver)) 4 pb.reverse) 36 mb.reverse) 68 cb.reverse)
        100 (le32 time)) 104 (le32 (bits_ul % 2 ^ 32))) 108 (List.replicate 32 0)).drop 4).take
        32 = pb.reverse
    rw [hH, hassoc4, drop_append_len _ _ 4 (by simp [le32])]
    exact take_append_len _ _ 32 hp'
  · show ((writeBytes (writeBytes (writeBytes (writeBytes (writeBytes (writeBytes (writeBytes
        (List.replicate 140 0) 0 (le32 ver)) 4 pb.reverse) 36 mb.reverse) 68 cb.reverse)
        100 (le32 time)) 104 (le32 (bits_ul % 2 ^ 32))) 108 (List.replicate 32 0)).drop 36).take
        32 = mb.reverse
    rw [hH, show le32 ver ++ pb.reverse ++ mb.reverse ++ cb.reverse ++ le32 time ++
        le32 (bits_ul % 2 ^ 32) ++ List.replicate 32 0 =
        (le32 ver ++ pb.reverse) ++ (mb.reverse ++ (cb.reverse ++ (le32 time ++
          (le32 (bits_ul % 2 ^ 32) ++ List.replicate 32 0)))) from by simp [List.append_assoc],
      drop_append_len _ _ 36 (by simp [le32, hp32])]
    exact take_append_len _ _ 32 hm'
  · show ((writeBytes (writeBytes (writeBytes (writeBytes (writeBytes (writeBytes (writeBytes
        (List.replicate 140 0) 0 (le32 ver)) 4 pb.reverse) 36 mb.reverse) 68 cb.reverse)
        100 (le32 time)) 104 (le32 (bits_ul % 2 ^ 32))) 108 (List.replicate 32 0)).drop 68).take
        32 = cb.reverse
    rw [hH, show le32 ver ++ pb.reverse ++ mb.reverse ++ cb.reverse ++ le32 time ++
        le32 (bits_ul % 2 ^ 32) ++ List.replicate 32 0 =
        (le32 ver ++ pb.reverse ++ mb.reverse) ++ (cb.reverse ++ (le32 time ++
          (le32 (bits_ul % 2 ^ 32) ++ List.replicate 32 0))) from by simp [List.append_assoc],
      drop_append_len _ _ 68 (by simp [le32, hp32, hm32])]
    exact take_append_len _ _ 32 hc'
  · show ((writeBytes (writeBytes (writeBytes (writeBytes (writeBytes (writeBytes (writeBytes
        (List.replicate 140 0) 0 (le32 ver)) 4 pb.reverse) 36 mb.reverse) 68 cb.reverse)
        100 (le32 time)) 104 (le32 (bits_ul % 2 ^ 32))) 108 (List.replicate 32 0)).drop
        100).take 4 = le32 time
    rw [hH, show le32 ver ++ pb.reverse ++ mb.reverse ++ cb.reverse ++ le32 time ++
        le32 (bits_ul % 2 ^ 32) ++ List.replicate 32 0 =
        (le32 ver ++ pb.reverse ++ mb.reverse ++ cb.reverse) ++ (le32 time ++
          (le32 (bits_ul % 2 ^ 32) ++ List.replicate 32 0)) from by simp [List.append_assoc],
      drop_append_len _ _ 100 (by simp [le32, hp32, hm32, hc32])]
    exact take_append_len _ _ 4 (by simp [le32])
  · show ((writeBytes (writeBytes (writeBytes (writeBytes (writeBytes (writeBytes (writeBytes
        (List.replicate 140 0) 0 (le32 ver)) 4 pb.reverse) 36 mb.reverse) 68 cb.reverse)
        100 (le32 time)) 104 (le32 (bits_ul % 2 ^ 32))) 108 (List.replicate 32 0)).drop
        104).take 4 = le32 (bits_ul % 2 ^ 32)
    rw [hH, show le32 ver ++ pb.reverse ++ mb.reverse ++ cb.reverse ++ le32 time ++
        le32 (bits_ul % 2 ^ 32) ++ List.replicate 32 0 =
        (le32 ver ++ pb.reverse ++ mb.reverse ++ cb.reverse ++ le32 time) ++
          (le32 (bits_ul % 2 ^ 32) ++ List.replicate 32 0) from by simp [List.append_assoc],
      drop_append_len _ _ 104 (by simp [le32, hp32, hm32, hc32])]
    exact take_append_len _ _ 4 (by simp [le32])

/-- Witness for C1: the layout facts instantiated on the accepted
block-1583 template. -/
theorem parse_block_template_layout_witness :
    ∃ prev_bytes merkle_bytes commitments_bytes seed_hex,
      hex_to_bytes block1583_parsed.previous_block_hash = some prev_bytes ∧
      hex_to_bytes block1583_parsed.merkle_root = some merkle_bytes ∧
      hex_to_bytes block1583_parsed.block_commitments_hash = some commitments_bytes ∧
      block1583_template.randomxseedhash = some seed_hex ∧
      hex_to_bytes seed_hex = some block1583_parsed.seed_hash ∧
      block1583_parsed.seed_hash.length = 32 ∧
      block1583_parsed.header_base.length = 140 ∧
      block1583_parsed.header_base.take 4 = le32 block1583_parsed.version ∧
      (block1583_parsed.header_base.drop 4).take 32 = prev_bytes.reverse ∧
      (block1583_parsed.header_base.drop 36).take 32 = merkle_bytes.reverse ∧
      (block1583_parsed.header_base.drop 68).take 32 = commitments_bytes.reverse ∧
      (block1583_parsed.header_base.drop 100).take 4 = le32 block1583_parsed.time ∧
      (block1583_parsed.header_base.drop 104).take 4 = le32 block1583_parsed.bits :=
  parse_block_template_layout block1583_template block1583_parsed (by rfl)

/-! ## Claims C6 and C9 -/

/-- C9: a seed whose length is not 32 bytes makes `update_seed` return false
without stopping mining and without touching any state (the returned miner
state is the input state unchanged, and no RandomX work is performed). -/
theorem update_seed_bad_length (st : MinerSt) (s : List Nat) (hlen : s.length ≠ 32) :
    update_seed st s = (false, st, []) := by
  simp [update_seed, hlen]

/-- Witness for C9: the empty seed on a concrete mining state. -/
theorem update_seed_bad_length_witness :
    update_seed
        { fast_mode := false, numa_available := false, mining := true,
          current_seed_hash := List.replicate 32 0, numa_nodes := [],
          legacy_cache := some (List.replicate 32 0), legacy_vms := [], dataset := none }
        [] =
      (false,
        { fast_mode := false, numa_available := false, mining := true,
          current_seed_hash := List.replicate 32 0, numa_nodes := [],
          legacy_cache := some (List.replicate 32 0), legacy_vms := [], dataset := none },
        []) :=
  update_seed_bad_length _ [] (by simp)

/-- C6: updating with the current 32-byte seed is a success and a no-op
(state unchanged, no RandomX work), and calling `update_seed` twice with the
same seed performs work only on the first call: the second call never
performs any work. -/
theorem update_seed_idempotent (st : MinerSt) (s : List Nat) :
    (s.length = 32 → s = st.current_seed_hash → update_seed st s = (true, st, [])) ∧
      (update_seed (update_seed st s).2.1 s).2.2 = [] := by
  constructor
  · intro hlen heq
    subst heq
    simp [update_seed, hlen]
  · by_cases hlen : s.length = 32
    · by_cases heq : s = st.current_seed_hash
      · subst heq
        simp [update_seed, hlen]
      · rcases st with ⟨fm, na, mi, seed, nodes, lc, lvms, ds⟩
        cases na <;> cases fm <;> rcases lc with _ | c <;> rcases ds with _ | d <;>
          simp [update_seed, hlen, heq]
    · simp [update_seed, hlen]

/-- Witness for C6: re-sending the current all-zero seed to a concrete
initialized miner state is a no-op. -/
theorem update_seed_idempotent_witness :
    update_seed
        { fast_mode := false, numa_available := false, mining := false,
          current_seed_hash := List.replicate 32 0, numa_nodes := [],
          legacy_cache := some (List.replicate 32 0), legacy_vms := [], dataset := none }
        (List.replicate 32 0) =
      (true,
        { fast_mode := false, numa_available := false, mining := false,
          current_seed_hash := List.replicate 32 0, numa_nodes := [],
          legacy_cache := some (List.replicate 32 0), legacy_vms := [], dataset := none },
        []) :=
  (update_seed_idempotent _ _).1 (by simp) rfl

/-! ## Claim C8 -/

/-- A single step neither clears the solution slot nor resets `found` once a
solution is published: `publish` requires `found = false`, which contradicts
`found = true`. -/
theorem step_preserves_solution {l : ELabel} {st st2 : EngineSt}
    (hstep : EngineStep l st st2) {v : Nat × Sol} (hslot : st.slot = some v)
    (hfound : st.found = true) : st2.slot = some v ∧ st2.found = true := by
  cases hstep with
  | hash st => exact ⟨hslot, hfound⟩
  | publish st i s hf => rw [hfound] at hf; exact absurd hf (by simp)
  | stop st => exact ⟨hslot, hfound⟩

theorem step_preserves_found {l : ELabel} {st st2 : EngineSt}
    (hstep : EngineStep l st st2) (hf : st.found = true) : st2.found = true := by
  cases hstep <;> simp_all

theorem trace_preserves_solution : ∀ {st st2 : EngineSt} {tr : List ELabel},
    EngineTrace st tr st2 → ∀ {v : Nat × Sol}, st.slot = some v → st.found = true →
      st2.slot = some v ∧ st2.found = true := by
  intro st st2 tr htr
  induction htr with
  | nil st => exact fun hslot hfound => ⟨hslot, hfound⟩
  | cons hstep htr2 ih =>
    intro v hslot hfound
    obtain ⟨h1, h2⟩ := step_preserves_solution hstep hslot hfound
    exact ih h1 h2

theorem trace_no_publish_of_found : ∀ {st st2 : EngineSt} {tr : List ELabel},
    EngineTrace st tr st2 → st.found = true → tr.countP isPublish = 0 := by
  intro st st2 tr htr
  induction htr with
  | nil st => intro _; rfl
  | cons hstep htr2 ih =>
    intro hf
    rw [List.countP_cons]
    have h0 := ih (step_preserves_found hstep hf)
    cases hstep with
    | hash st1 => simp [isPublish, h0]
    | publish st1 i s hfo => rw [hf] at hfo; exact absurd hfo (by simp)
    | stop st1 => simp [isPublish, h0]

theorem trace_publish_count : ∀ {st st2 : EngineSt} {tr : List ELabel},
    EngineTrace st tr st2 → st.found = false → tr.countP isPublish ≤ 1 := by
  intro st st2 tr htr
  induction htr with
  | nil st => intro _; simp
  | cons hstep htr2 ih =>
    intro hf
    rw [List.countP_cons]
    cases hstep with
    | hash st1 => simpa [isPublish] using ih hf
    | stop st1 => simpa [isPublish] using ih hf
    | publish st1 i s hfo =>
      have h0 : _ = 0 := trace_no_publish_of_found htr2 rfl
      simp [isPublish, h0]

/-- C8: in any session interleaving started with `found = false`, at most
one worker publishes a solution (the winner of the compare-and-set), and
once a solution `(i, s)` sits in the slot with `found = true`, every later
state still holds exactly that solution and `get_solution` keeps returning
it — in particular after `stop()`. -/
theorem mining_solution_unique (st0 st : EngineSt) (tr : List ELabel)
    (hfound : st0.found = false) (htr : EngineTrace st0 tr st) :
    tr.countP isPublish ≤ 1 ∧
      ∀ i s tr2 st2, st.slot = some (i, s) → st.found = true →
        EngineTrace st tr2 st2 → st2.slot = some (i, s) ∧ get_solution st2 = some s := by
  constructor
  · exact trace_publish_count htr hfound
  · intro i s tr2 st2 hslot hf htr2
    obtain ⟨h1, h2⟩ := trace_preserves_solution htr2 hslot hf
    refine ⟨h1, ?_⟩
    simp [get_solution, h1, h2]

/-- Witness for C8: a one-step session in which worker 0 publishes. -/
theorem mining_solution_unique_witness :
    List.countP isPublish [ELabel.lpublish 0 ⟨[], [], []⟩] ≤ 1 :=
  (mining_solution_unique
    { mining := true, found := false, hash_count := 0, slot := none }
    { mining := false, found := true, hash_count := 0, slot := some (0, ⟨[], [], []⟩) }
    [ELabel.lpublish 0 ⟨[], [], []⟩]
    rfl
    (EngineTrace.cons (EngineStep.publish _ 0 ⟨[], [], []⟩ rfl) (EngineTrace.nil _))).1

end JunoMiner
